import Mathlib

/-
Verification of the Millennium Falcon route search core:
a shallow embedding of src/src/galaxy.py, src/src/models.py and
src/src/pathfinder.py, together with theorems about the embedded code.

The search loop of PathFinder.find_min_encounters is a while-loop over a
FIFO queue; it is embedded as a structurally recursive function over an
explicit step budget ("fuel").  A result of `none` means the budget ran
out mid-loop; `some r` means the loop reached an empty queue and returned
`r` exactly as the Python code does.  All theorems about returned results
are proved for every budget, so they apply to the real (terminating) run.
-/

namespace MFalcon

/-- Route: a bidirectional hyperspace route (models.py, class Route). -/
structure Route where
  origin : String
  destination : String
  travel_time : Nat
deriving DecidableEq

/-- Error kinds raised by the embedded code (Python ValueError sites). -/
inductive PFError where
  | unknownLocation : String → PFError
  | invalidInput : PFError
deriving DecidableEq

/-- Galaxy: adjacency map plus the set of planet names (galaxy.py). -/
structure Galaxy where
  adjacency : String → List (String × Nat)
  planets : List String

/-- Galaxy.get_neighbors: adjacency lookup, empty list for unknown planets. -/
def Galaxy.get_neighbors (g : Galaxy) (p : String) : List (String × Nat) :=
  g.adjacency p

/-- Galaxy.has_planet: membership in the planet set. -/
def Galaxy.has_planet (g : Galaxy) (p : String) : Bool :=
  g.planets.contains p

/-- Append one directed adjacency entry to the map. -/
def adjAdd (adj : String → List (String × Nat)) (k : String) (v : String × Nat) :
    String → List (String × Nat) :=
  fun p => if p = k then adj p ++ [v] else adj p

/-- Insert one Route as two directed adjacency entries (galaxy.py lines 50-53). -/
def addRoute (adj : String → List (String × Nat)) (r : Route) :
    String → List (String × Nat) :=
  adjAdd (adjAdd adj r.origin (r.destination, r.travel_time))
    r.destination (r.origin, r.travel_time)

/-- Add a planet name to the planet set (Python set.add). -/
def addPlanet (ps : List String) (p : String) : List String :=
  if ps.contains p then ps else ps ++ [p]

/-- Record both endpoint planets of a route (galaxy.py lines 56-57). -/
def addRoutePlanets (ps : List String) (r : Route) : List String :=
  addPlanet (addPlanet ps r.origin) r.destination

/-- The body of Galaxy.__init__ after the emptiness check. -/
def mkGalaxyRaw (routes : List Route) : Galaxy :=
  { adjacency := routes.foldl addRoute (fun _ => [])
    planets := routes.foldl addRoutePlanets [] }

/-- Galaxy.__init__: fails on an empty route list, else builds the graph. -/
def mkGalaxy (routes : List Route) : Except PFError Galaxy :=
  if routes.isEmpty then .error .invalidInput
  else .ok (mkGalaxyRaw routes)

/-- The inner for-loop of Galaxy.is_connected over the neighbors of the
current planet: `none` signals that the target was found (early return
True); otherwise returns the updated visited set and queue. -/
def scanNeighbors (target : String) :
    List (String × Nat) → List String → List String →
    Option (List String × List String)
  | [], vis, q => some (vis, q)
  | (n, _) :: tl, vis, q =>
    if n = target then none
    else if vis.contains n then scanNeighbors target tl vis q
    else scanNeighbors target tl (vis ++ [n]) (q ++ [n])

/-- The while-loop of Galaxy.is_connected, with an explicit step budget. -/
def connLoop (g : Galaxy) (target : String) :
    Nat → List String → List String → Option Bool
  | _, [], _ => some false
  | 0, _ :: _, _ => none
  | fc + 1, cur :: rest, vis =>
    match scanNeighbors target (g.get_neighbors cur) vis rest with
    | none => some true
    | some (vis2, q2) => connLoop g target fc q2 vis2

/-- Galaxy.is_connected (galaxy.py lines 96-134): unknown endpoints give
False, equal endpoints give True, otherwise a BFS connectivity check. -/
def Galaxy.is_connected (fc : Nat) (g : Galaxy) (start e : String) : Option Bool :=
  if g.has_planet start = false || g.has_planet e = false then some false
  else if start = e then some true
  else connLoop g e fc [start] [start]

/-- SearchState (models.py): position, day, fuel and encounter count. -/
structure SearchState where
  planet : String
  day : Nat
  fuel : Nat
  encounters : Nat
deriving DecidableEq

/-- PathFinder: the galaxy, the fuel autonomy and the bounty hunter
schedule.  The schedule is consumed only through _has_bounty_hunters, so
it is embedded as the predicate that function computes. -/
structure PathFinder where
  galaxy : Galaxy
  autonomy : Nat
  schedule : String → Nat → Bool

/-- PathFinder._has_bounty_hunters. -/
def PathFinder.hasBountyHunters (pf : PathFinder) (p : String) (d : Nat) : Bool :=
  pf.schedule p d

/-- Encounter increment: 1 when bounty hunters are present, else 0. -/
def bhInc (pf : PathFinder) (p : String) (d : Nat) : Nat :=
  if pf.hasBountyHunters p d then 1 else 0

/-- All successor states generated from one dequeued state, in the order
the Python code generates them: travel moves (lines 143-164), then the
refuel move (lines 168-185), then the wait move (lines 190-207). -/
def candidates (pf : PathFinder) (s : SearchState) : List SearchState :=
  ((pf.galaxy.get_neighbors s.planet).filterMap (fun nt =>
    if nt.2 ≤ s.fuel then
      some { planet := nt.1, day := s.day + nt.2, fuel := s.fuel - nt.2,
             encounters := s.encounters + bhInc pf nt.1 (s.day + nt.2) }
    else none))
  ++ (if s.fuel < pf.autonomy then
        [{ planet := s.planet, day := s.day + 1, fuel := pf.autonomy,
           encounters := s.encounters + bhInc pf s.planet (s.day + 1) }]
      else [])
  ++ (if s.fuel = pf.autonomy then
        [{ planet := s.planet, day := s.day + 1, fuel := pf.autonomy,
           encounters := s.encounters + bhInc pf s.planet (s.day + 1) }]
      else [])

/-- The deduplication key of a state: (planet, day, fuel). -/
def skey (s : SearchState) : String × Nat × Nat :=
  (s.planet, s.day, s.fuel)

/-- The visited map: association list from keys to minimum encounters. -/
def vfind : List ((String × Nat × Nat) × Nat) → String × Nat × Nat → Option Nat
  | [], _ => none
  | (k, v) :: tl, k2 => if k2 = k then some v else vfind tl k2

/-- PathFinder._should_visit (pathfinder.py lines 228-257). -/
def shouldVisit (V : List ((String × Nat × Nat) × Nat)) (s : SearchState) : Bool :=
  match vfind V (skey s) with
  | none => true
  | some e => s.encounters < e

/-- One conditional push of a successor state (guard, visited update and
queue append, as at pathfinder.py lines 162-164). -/
def tryPush (path : List SearchState)
    (QV : List (SearchState × List SearchState) × List ((String × Nat × Nat) × Nat))
    (s2 : SearchState) :
    List (SearchState × List SearchState) × List ((String × Nat × Nat) × Nat) :=
  if shouldVisit QV.2 s2 then
    (QV.1 ++ [(s2, path ++ [s2])], (skey s2, s2.encounters) :: QV.2)
  else QV

/-- Expansion of one dequeued state: push every candidate successor in
program order, threading the queue and the visited map. -/
def expand (pf : PathFinder) (s : SearchState) (path : List SearchState)
    (Q : List (SearchState × List SearchState))
    (V : List ((String × Nat × Nat) × Nat)) :
    List (SearchState × List SearchState) × List ((String × Nat × Nat) × Nat) :=
  (candidates pf s).foldl (tryPush path) (Q, V)

/-- Comparison of an encounter count against the best found so far
(min_encounters starts at infinity, embedded as `none`). -/
def encLtBest (e : Nat) (best : Option (Nat × List SearchState)) : Bool :=
  match best with
  | none => true
  | some (m, _) => e < m

/-- The return value built after the loop (pathfinder.py lines 210-213). -/
def finishResult (best : Option (Nat × List SearchState)) :
    Int × Option (List SearchState) :=
  match best with
  | none => (-1, none)
  | some (m, p) => ((m : Int), some p)

/-- The BFS while-loop of find_min_encounters (pathfinder.py lines
122-207), with an explicit step budget.  Each iteration dequeues one
(state, path) pair and applies, in order: the countdown check, the
best-bound pruning check, the destination check, and expansion. -/
def searchLoop (pf : PathFinder) (dest : String) (countdown : Nat) :
    Nat → List (SearchState × List SearchState) →
    List ((String × Nat × Nat) × Nat) → Option (Nat × List SearchState) →
    Option (Int × Option (List SearchState))
  | fuel, Q, V, best =>
    match Q with
    | [] => some (finishResult best)
    | (s, path) :: rest =>
      match fuel with
      | 0 => none
      | fl + 1 =>
        if countdown < s.day then searchLoop pf dest countdown fl rest V best
        else if encLtBest s.encounters best = false then
          searchLoop pf dest countdown fl rest V best
        else if s.planet = dest then
          searchLoop pf dest countdown fl rest V
            (if encLtBest s.encounters best then some (s.encounters, path) else best)
        else
          searchLoop pf dest countdown fl
            (expand pf s path rest V).1 (expand pf s path rest V).2 best

/-- The initial search state (pathfinder.py lines 102-107). -/
def initState (pf : PathFinder) (start : String) : SearchState :=
  { planet := start, day := 0, fuel := pf.autonomy, encounters := 0 }

/-- PathFinder.find_min_encounters (pathfinder.py lines 52-213): the
eager planet checks, the connectivity short-circuit, then the search
loop started from the initial state with the initial visited map. -/
def find_min_encounters (pf : PathFinder) (fc fl : Nat)
    (start destination : String) (countdown : Nat) :
    Except PFError (Option (Int × Option (List SearchState))) :=
  if pf.galaxy.has_planet start = false then .error (.unknownLocation start)
  else if pf.galaxy.has_planet destination = false then
    .error (.unknownLocation destination)
  else
    match Galaxy.is_connected fc pf.galaxy start destination with
    | none => .ok none
    | some false => .ok (some (-1, none))
    | some true =>
      .ok (searchLoop pf destination countdown fl
        [(initState pf start, [initState pf start])]
        [(skey (initState pf start), 0)] none)

/-- calculate_success_probability (pathfinder.py lines 260-321), with the
exact rational value 9/10 standing for the literal 0.9. -/
def calculate_success_probability (encounters : Int) : Except PFError ℚ :=
  if encounters < 0 then .error .invalidInput
  else if encounters = 0 then .ok 1
  else .ok ((9 / 10 : ℚ) ^ encounters.toNat)

/-! Concrete example inputs used by witnesses and counterexamples. -/

/-- A one-route galaxy between planets A and B. -/
def exRoutes : List Route :=
  [{ origin := ("A"), destination := ("B"), travel_time := 1 }]

/-- The galaxy built from `exRoutes`. -/
def exGalaxy : Galaxy := mkGalaxyRaw exRoutes

/-- A two-component galaxy: A-B and C-D are not connected to each other. -/
def exRoutes2 : List Route :=
  [{ origin := ("A"), destination := ("B"), travel_time := 1 },
   { origin := ("C"), destination := ("D"), travel_time := 1 }]

/-- The galaxy built from `exRoutes2`. -/
def exGalaxy2 : Galaxy := mkGalaxyRaw exRoutes2

/-- A pathfinder over `exGalaxy` with autonomy 1 and no bounty hunters. -/
def exPF : PathFinder :=
  { galaxy := exGalaxy, autonomy := 1, schedule := fun _ _ => false }

/-- A pathfinder over `exGalaxy2` with autonomy 1 and no bounty hunters. -/
def exPF2 : PathFinder :=
  { galaxy := exGalaxy2, autonomy := 1, schedule := fun _ _ => false }

/-- A pathfinder over `exGalaxy` whose schedule puts bounty hunters on
planet A on day 0 (a sighting at the start on the start day). -/
def exPFDay0 : PathFinder :=
  { galaxy := exGalaxy, autonomy := 1,
    schedule := fun p d => p == ("A") && d == 0 }

/-! Unfolding lemmas for the search loop. -/

theorem searchLoop_nil (pf : PathFinder) (dest : String) (cd fuel : Nat)
    (V : List ((String × Nat × Nat) × Nat)) (best : Option (Nat × List SearchState)) :
    searchLoop pf dest cd fuel [] V best = some (finishResult best) := by
  cases fuel <;> rfl

theorem searchLoop_cons_zero (pf : PathFinder) (dest : String) (cd : Nat)
    (s : SearchState) (path : List SearchState)
    (rest : List (SearchState × List SearchState))
    (V : List ((String × Nat × Nat) × Nat)) (best : Option (Nat × List SearchState)) :
    searchLoop pf dest cd 0 ((s, path) :: rest) V best = none := rfl

theorem searchLoop_cons_succ (pf : PathFinder) (dest : String) (cd fl : Nat)
    (s : SearchState) (path : List SearchState)
    (rest : List (SearchState × List SearchState))
    (V : List ((String × Nat × Nat) × Nat)) (best : Option (Nat × List SearchState)) :
    searchLoop pf dest cd (fl + 1) ((s, path) :: rest) V best =
      if cd < s.day then searchLoop pf dest cd fl rest V best
      else if encLtBest s.encounters best = false then
        searchLoop pf dest cd fl rest V best
      else if s.planet = dest then
        searchLoop pf dest cd fl rest V
          (if encLtBest s.encounters best then some (s.encounters, path) else best)
      else
        searchLoop pf dest cd fl
          (expand pf s path rest V).1 (expand pf s path rest V).2 best := rfl

/-! Claim theorems for the directly checkable claims. -/

/-- C6: find_min_encounters fails with an unknown-location error exactly
when the start or the destination is absent from the graph. -/
theorem C6_unknown_location_iff (pf : PathFinder) (fc fl : Nat)
    (start dest : String) (cd : Nat) :
    (∃ e, find_min_encounters pf fc fl start dest cd = .error e) ↔
      (pf.galaxy.has_planet start = false ∨ pf.galaxy.has_planet dest = false) := by
  unfold find_min_encounters
  by_cases h1 : pf.galaxy.has_planet start = false
  · simp [h1]
  · by_cases h2 : pf.galaxy.has_planet dest = false
    · simp [h1, h2]
    · simp only [h1, h2, if_false, or_self, iff_false]
      cases hic : Galaxy.is_connected fc pf.galaxy start dest with
      | none => simp
      | some b => cases b <;> simp

/-- C2: when both endpoints exist but is_connected answers false,
find_min_encounters returns (-1, none) and raises no error. -/
theorem C2_disconnected (pf : PathFinder) (fc fl : Nat)
    (start dest : String) (cd : Nat)
    (h1 : pf.galaxy.has_planet start = true)
    (h2 : pf.galaxy.has_planet dest = true)
    (h3 : Galaxy.is_connected fc pf.galaxy start dest = some false) :
    find_min_encounters pf fc fl start dest cd = .ok (some (-1, none)) := by
  unfold find_min_encounters
  simp [h1, h2, h3]

/-- C2 witness: in the two-component galaxy, A and C exist but are not
connected, and the search returns (-1, none). -/
theorem C2_disconnected_witness :
    exPF2.galaxy.has_planet ("A") = true ∧
    exPF2.galaxy.has_planet ("C") = true ∧
    Galaxy.is_connected 3 exPF2.galaxy ("A") ("C") = some false ∧
    find_min_encounters exPF2 3 5 ("A") ("C") 10 = .ok (some (-1, none)) :=
  ⟨by decide, by decide, by decide,
    C2_disconnected exPF2 3 5 ("A") ("C") 10 (by decide) (by decide) (by decide)⟩

/-- C3: the success probability is exactly (9/10)^e for every
non-negative e, is exactly 1 at e = 0, and is strictly decreasing. -/
theorem C3_success_probability :
    (∀ e : Nat, calculate_success_probability (e : Int) = .ok ((9 / 10 : ℚ) ^ e)) ∧
    calculate_success_probability 0 = .ok 1 ∧
    (∀ e1 e2 : Nat, e1 < e2 → ∀ q1 q2 : ℚ,
      calculate_success_probability (e1 : Int) = .ok q1 →
      calculate_success_probability (e2 : Int) = .ok q2 → q2 < q1) := by
  have hval : ∀ e : Nat,
      calculate_success_probability (e : Int) = .ok ((9 / 10 : ℚ) ^ e) := by
    intro e
    unfold calculate_success_probability
    rcases Nat.eq_zero_or_pos e with he | he
    · subst he; norm_num
    · have h1 : ¬ ((e : Int) < 0) := by omega
      have h2 : ¬ ((e : Int) = 0) := by omega
      simp [h1, h2]
  refine ⟨hval, by simpa using hval 0, ?_⟩
  intro e1 e2 hlt q1 q2 h1 h2
  rw [hval e1] at h1
  rw [hval e2] at h2
  obtain rfl : (9 / 10 : ℚ) ^ e1 = q1 := by injection h1
  obtain rfl : (9 / 10 : ℚ) ^ e2 = q2 := by injection h2
  exact pow_lt_pow_right_of_lt_one₀ (by norm_num) (by norm_num) hlt

/-- C3 witness: instance of the strict decrease at e1 = 1 < e2 = 2 and of
the exact value at e = 1. -/
theorem C3_success_probability_witness :
    calculate_success_probability 1 = .ok ((9 / 10 : ℚ) ^ (1 : Nat)) ∧
    (9 / 10 : ℚ) ^ (2 : Nat) < (9 / 10 : ℚ) ^ (1 : Nat) :=
  ⟨C3_success_probability.1 1,
    C3_success_probability.2.2 1 2 (by decide) _ _
      (C3_success_probability.1 1) (C3_success_probability.1 2)⟩

/-- C7 counterexample: for a location C absent from the one-route galaxy,
is_connected C C returns false, refuting the claim that isConnected(a, a)
is true with no existence precondition. -/
theorem C7_counterexample :
    exGalaxy.has_planet ("C") = false ∧
    Galaxy.is_connected 1 exGalaxy ("C") ("C") = some false := by
  constructor
  · decide
  · decide

/-- C7 amended: is_connected a a returns true for every location a that
exists in the graph (the code checks existence before the equal-endpoints
shortcut, so absent locations give false instead). -/
theorem C7_self_connected (fc : Nat) (g : Galaxy) (a : String)
    (h : g.has_planet a = true) :
    Galaxy.is_connected fc g a a = some true := by
  unfold Galaxy.is_connected
  simp [h]

/-- C7 witness: planet A exists in the one-route galaxy and is connected
to itself. -/
theorem C7_self_connected_witness :
    exGalaxy.has_planet ("A") = true ∧
    Galaxy.is_connected 0 exGalaxy ("A") ("A") = some true :=
  ⟨by decide, C7_self_connected 0 exGalaxy ("A") (by decide)⟩

/-- C8: building a galaxy from an empty route list fails with
InvalidInput, and from any non-empty route list it succeeds. -/
theorem C8_constructor :
    mkGalaxy [] = .error .invalidInput ∧
    ∀ rs : List Route, rs ≠ [] → ∃ g, mkGalaxy rs = .ok g := by
  constructor
  · rfl
  · intro rs h
    refine ⟨mkGalaxyRaw rs, ?_⟩
    unfold mkGalaxy
    cases rs with
    | nil => exact absurd rfl h
    | cons a tl => rfl

/-- C8 witness: the one-route list is non-empty and builds successfully. -/
theorem C8_constructor_witness :
    exRoutes ≠ [] ∧ ∃ g, mkGalaxy exRoutes = .ok g :=
  ⟨by decide, C8_constructor.2 exRoutes (by decide)⟩

/-- Membership in an adjacency list survives adding an entry. -/
theorem adjAdd_mono {adj : String → List (String × Nat)} {k : String}
    {v : String × Nat} {p : String} {x : String × Nat}
    (h : x ∈ adj p) : x ∈ adjAdd adj k v p := by
  unfold adjAdd
  by_cases hp : p = k
  · subst hp; simp [h]
  · simp [hp, h]

/-- Membership in an adjacency list survives inserting a route. -/
theorem addRoute_mono {adj : String → List (String × Nat)} {r : Route}
    {p : String} {x : String × Nat} (h : x ∈ adj p) : x ∈ addRoute adj r p :=
  adjAdd_mono (adjAdd_mono h)

/-- Membership in an adjacency list survives inserting a route list. -/
theorem foldl_addRoute_mono :
    ∀ (rs : List Route) (adj : String → List (String × Nat)) (p : String)
      (x : String × Nat), x ∈ adj p → x ∈ (rs.foldl addRoute adj) p := by
  intro rs
  induction rs with
  | nil => intro adj p x h; simpa using h
  | cons r tl ih => intro adj p x h; exact ih _ _ _ (addRoute_mono h)

/-- Inserting a route records the forward adjacency entry. -/
theorem addRoute_mem1 (adj : String → List (String × Nat)) (r : Route) :
    (r.destination, r.travel_time) ∈ addRoute adj r r.origin := by
  unfold addRoute adjAdd
  by_cases h : r.origin = r.destination <;> simp [h]

/-- Inserting a route records the backward adjacency entry. -/
theorem addRoute_mem2 (adj : String → List (String × Nat)) (r : Route) :
    (r.origin, r.travel_time) ∈ addRoute adj r r.destination := by
  unfold addRoute adjAdd
  simp

/-- Every route of the list contributes both adjacency entries. -/
theorem mem_foldl_addRoute :
    ∀ (rs : List Route) (adj : String → List (String × Nat)) (r : Route),
      r ∈ rs →
      (r.destination, r.travel_time) ∈ (rs.foldl addRoute adj) r.origin ∧
      (r.origin, r.travel_time) ∈ (rs.foldl addRoute adj) r.destination := by
  intro rs
  induction rs with
  | nil => simp
  | cons a tl ih =>
    intro adj r hr
    rcases List.mem_cons.1 hr with rfl | hr
    · exact ⟨foldl_addRoute_mono tl _ _ _ (addRoute_mem1 adj r),
        foldl_addRoute_mono tl _ _ _ (addRoute_mem2 adj r)⟩
    · exact ih _ r hr

/-- C9: after a successful construction, every input route appears in the
neighbor lists of both of its endpoints with its travel time. -/
theorem C9_bidirectional (rs : List Route) (g : Galaxy) (r : Route)
    (hok : mkGalaxy rs = .ok g) (hr : r ∈ rs) :
    (r.destination, r.travel_time) ∈ g.get_neighbors r.origin ∧
    (r.origin, r.travel_time) ∈ g.get_neighbors r.destination := by
  have hg : g = mkGalaxyRaw rs := by
    unfold mkGalaxy at hok
    split at hok
    · cases hok
    · injection hok with h; exact h.symm
  subst hg
  exact mem_foldl_addRoute rs _ r hr

/-- C9 witness: the single route A-B appears in both neighbor lists. -/
theorem C9_bidirectional_witness :
    (("B"), 1) ∈ exGalaxy.get_neighbors ("A") ∧
    (("A"), 1) ∈ exGalaxy.get_neighbors ("B") :=
  C9_bidirectional exRoutes exGalaxy
    { origin := ("A"), destination := ("B"), travel_time := 1 } rfl (by decide)

/-- C10: the initial state always has encounter count 0, whatever the
schedule says about the start location on day 0; in particular when start
equals destination the search returns (0, [initial state]) for every
countdown. -/
theorem C10_start_day_zero (pf : PathFinder) (fc fl : Nat) (start : String)
    (cd : Nat) (hfl : 1 ≤ fl) (hs : pf.galaxy.has_planet start = true) :
    find_min_encounters pf fc fl start start cd =
      .ok (some (0, some [initState pf start])) := by
  obtain ⟨k, rfl⟩ : ∃ k, fl = k + 1 := ⟨fl - 1, by omega⟩
  unfold find_min_encounters
  have hic : Galaxy.is_connected fc pf.galaxy start start = some true := by
    unfold Galaxy.is_connected
    simp [hs]
  simp only [hs, hic]
  rw [if_neg (by simp), if_neg (by simp)]
  rw [searchLoop_cons_succ]
  have hday : ¬ (cd < (initState pf start).day) := by
    simp [initState]
  rw [if_neg hday]
  rw [if_neg (by simp [encLtBest])]
  rw [if_pos (by simp [initState])]
  rw [if_pos (by simp [encLtBest])]
  rw [searchLoop_nil]
  rfl

/-- C10 witness: with bounty hunters scheduled on the start planet A on
day 0, the start-equals-destination query still returns encounter count 0
with the single-state path whose encounters field is 0. -/
theorem C10_start_day_zero_witness :
    exPFDay0.hasBountyHunters ("A") 0 = true ∧
    find_min_encounters exPFDay0 0 1 ("A") ("A") 0 =
      .ok (some (0, some [initState exPFDay0 ("A")])) :=
  ⟨by decide, C10_start_day_zero exPFDay0 0 1 ("A") 0 (by decide) (by decide)⟩

/-! Machinery for the search-loop invariant proofs: a key-level view of
successor generation, and lemmas about the visited map and the queue. -/

/-- Key-level successor description: each successor's (planet, day, fuel)
key together with its 0/1 encounter increment, one entry per action of
`candidates` in the same order. -/
def candK (pf : PathFinder) (k : String × Nat × Nat) :
    List ((String × Nat × Nat) × Nat) :=
  ((pf.galaxy.get_neighbors k.1).filterMap (fun nt =>
    if nt.2 ≤ k.2.2 then
      some ((nt.1, k.2.1 + nt.2, k.2.2 - nt.2), bhInc pf nt.1 (k.2.1 + nt.2))
    else none))
  ++ (if k.2.2 < pf.autonomy then
        [((k.1, k.2.1 + 1, pf.autonomy), bhInc pf k.1 (k.2.1 + 1))] else [])
  ++ (if k.2.2 = pf.autonomy then
        [((k.1, k.2.1 + 1, pf.autonomy), bhInc pf k.1 (k.2.1 + 1))] else [])

/-- The successor states of s are exactly the key-level successors of its
key, each carrying s's encounter count plus the increment. -/
theorem candidates_eq (pf : PathFinder) (s : SearchState) :
    candidates pf s = (candK pf (skey s)).map
      (fun kd => { planet := kd.1.1, day := kd.1.2.1, fuel := kd.1.2.2,
                   encounters := s.encounters + kd.2 }) := by
  unfold candidates candK skey
  rw [List.map_append, List.map_append, List.map_filterMap]
  congr 1
  · congr 1
    have hf : (fun nt : String × Nat =>
        (if nt.2 ≤ s.fuel then
          some ((nt.1, s.day + nt.2, s.fuel - nt.2), bhInc pf nt.1 (s.day + nt.2))
         else none).map
          (fun kd => ({ planet := kd.1.1, day := kd.1.2.1, fuel := kd.1.2.2,
                        encounters := s.encounters + kd.2 } : SearchState))) =
        (fun nt : String × Nat =>
          if nt.2 ≤ s.fuel then
            some ({ planet := nt.1, day := s.day + nt.2, fuel := s.fuel - nt.2,
                    encounters := s.encounters + bhInc pf nt.1 (s.day + nt.2) } :
              SearchState)
          else none) := by
      funext nt
      split <;> rfl
    rw [hf]
    · split <;> rfl
  · split <;> rfl

/-- Membership form of `candidates_eq`. -/
theorem mem_candidates (pf : PathFinder) (s s2 : SearchState) :
    s2 ∈ candidates pf s ↔ ∃ kd, kd ∈ candK pf (skey s) ∧
      s2 = { planet := kd.1.1, day := kd.1.2.1, fuel := kd.1.2.2,
             encounters := s.encounters + kd.2 } := by
  rw [candidates_eq, List.mem_map]
  constructor
  · rintro ⟨kd, hkd, rfl⟩; exact ⟨kd, hkd, rfl⟩
  · rintro ⟨kd, hkd, rfl⟩; exact ⟨kd, hkd, rfl⟩

/-- The encounter increment is 0 or 1. -/
theorem bhInc_le_one (pf : PathFinder) (p : String) (d : Nat) : bhInc pf p d ≤ 1 := by
  unfold bhInc
  split <;> omega

/-- A key-level successor: its increment is at most 1, and its day is at
least the parent day. -/
theorem candK_bounds (pf : PathFinder) (k : String × Nat × Nat)
    (kd : (String × Nat × Nat) × Nat) (h : kd ∈ candK pf k) :
    kd.2 ≤ 1 ∧ k.2.1 ≤ kd.1.2.1 := by
  unfold candK at h
  rcases List.mem_append.1 h with h | h
  · rcases List.mem_append.1 h with h | h
    · rcases List.mem_filterMap.1 h with ⟨nt, _, heq⟩
      split at heq
      · cases heq
        exact ⟨bhInc_le_one pf _ _, Nat.le_add_right _ _⟩
      · cases heq
    · split at h
      · rcases List.mem_singleton.1 h with rfl
        exact ⟨bhInc_le_one pf _ _, Nat.le_add_right _ _⟩
      · cases h
  · split at h
    · rcases List.mem_singleton.1 h with rfl
      exact ⟨bhInc_le_one pf _ _, Nat.le_add_right _ _⟩
    · cases h

/-- A successor state has at least the parent's day and encounter count,
and at most one more encounter. -/
theorem mem_candidates_bounds (pf : PathFinder) (s s2 : SearchState)
    (h : s2 ∈ candidates pf s) :
    s.day ≤ s2.day ∧ s.encounters ≤ s2.encounters ∧
      s2.encounters ≤ s.encounters + 1 := by
  rcases (mem_candidates pf s s2).1 h with ⟨kd, hkd, rfl⟩
  have hb := candK_bounds pf (skey s) kd hkd
  unfold skey at hb
  exact ⟨hb.2, Nat.le_add_right _ _, Nat.add_le_add_left hb.1 s.encounters⟩

/-- Unfolding lemma for the visited map lookup. -/
theorem vfind_cons (k : String × Nat × Nat) (v : Nat)
    (tl : List ((String × Nat × Nat) × Nat)) (k2 : String × Nat × Nat) :
    vfind ((k, v) :: tl) k2 = if k2 = k then some v else vfind tl k2 := rfl

/-! Lemmas about one conditional push (`tryPush`). -/

/-- Pushing preserves queue membership. -/
theorem tryPush_queue_mono (path : List SearchState)
    (z : List (SearchState × List SearchState) × List ((String × Nat × Nat) × Nat))
    (c : SearchState) (e : SearchState × List SearchState) (h : e ∈ z.1) :
    e ∈ (tryPush path z c).1 := by
  unfold tryPush
  split
  · exact List.mem_append_left _ h
  · exact h

/-- Every queue entry after a push is an old entry or the pushed entry. -/
theorem tryPush_queue_cases (path : List SearchState)
    (z : List (SearchState × List SearchState) × List ((String × Nat × Nat) × Nat))
    (c : SearchState) (e : SearchState × List SearchState)
    (h : e ∈ (tryPush path z c).1) :
    e ∈ z.1 ∨ e = (c, path ++ [c]) := by
  unfold tryPush at h
  split at h
  · rcases List.mem_append.1 h with h | h
    · exact Or.inl h
    · exact Or.inr (List.mem_singleton.1 h)
  · exact Or.inl h

/-- The visited map value at any key never increases across a push. -/
theorem tryPush_vfind_le (path : List SearchState)
    (z : List (SearchState × List SearchState) × List ((String × Nat × Nat) × Nat))
    (c : SearchState) (k : String × Nat × Nat) (v : Nat)
    (h : vfind z.2 k = some v) :
    ∃ v2, vfind (tryPush path z c).2 k = some v2 ∧ v2 ≤ v := by
  unfold tryPush
  split
  · rename_i hsv
    rw [vfind_cons]
    by_cases hk : k = skey c
    · subst hk
      unfold shouldVisit at hsv
      rw [h] at hsv
      refine ⟨c.encounters, by simp, ?_⟩
      exact Nat.le_of_lt (of_decide_eq_true hsv)
    · rw [if_neg hk]
      exact ⟨v, h, le_rfl⟩
  · exact ⟨v, h, le_rfl⟩

/-- Any value in the visited map after a push was already there, or
belongs to the pushed entry which is now in the queue. -/
theorem tryPush_vfind_new (path : List SearchState)
    (z : List (SearchState × List SearchState) × List ((String × Nat × Nat) × Nat))
    (c : SearchState) (k : String × Nat × Nat) (v : Nat)
    (h : vfind (tryPush path z c).2 k = some v) :
    vfind z.2 k = some v ∨
      ∃ e ∈ (tryPush path z c).1, skey e.1 = k ∧ e.1.encounters = v := by
  unfold tryPush at h ⊢
  split at h
  · rw [vfind_cons] at h
    split at h
    · rename_i hk
      refine Or.inr ⟨(c, path ++ [c]), ?_, ?_, ?_⟩
      · split
        · exact List.mem_append_right _ (List.mem_singleton.2 rfl)
        · rename_i hsv hsv2
          exact absurd hsv hsv2
      · exact hk.symm
      · exact Option.some.inj h
    · exact Or.inl h
  · exact Or.inl h

/-- After a push of c, the visited map holds a value at c's key that is
at most c's encounter count. -/
theorem tryPush_self (path : List SearchState)
    (z : List (SearchState × List SearchState) × List ((String × Nat × Nat) × Nat))
    (c : SearchState) :
    ∃ v2, vfind (tryPush path z c).2 (skey c) = some v2 ∧ v2 ≤ c.encounters := by
  unfold tryPush
  by_cases hsv : shouldVisit z.2 c = true
  · rw [if_pos hsv, vfind_cons, if_pos rfl]
    exact ⟨c.encounters, rfl, le_rfl⟩
  · rw [if_neg hsv]
    unfold shouldVisit at hsv
    cases hv : vfind z.2 (skey c) with
    | none => rw [hv] at hsv; exact absurd rfl hsv
    | some e0 =>
      rw [hv] at hsv
      refine ⟨e0, rfl, ?_⟩
      have h2 : ¬ (c.encounters < e0) := fun h3 => hsv (decide_eq_true h3)
      omega

/-- A push preserves the queue-visited bound. -/
theorem tryPush_vqle (path : List SearchState)
    (z : List (SearchState × List SearchState) × List ((String × Nat × Nat) × Nat))
    (c : SearchState)
    (h : ∀ e ∈ z.1, ∃ v, vfind z.2 (skey e.1) = some v ∧ v ≤ e.1.encounters) :
    ∀ e ∈ (tryPush path z c).1,
      ∃ v, vfind (tryPush path z c).2 (skey e.1) = some v ∧ v ≤ e.1.encounters := by
  intro e he
  rcases tryPush_queue_cases path z c e he with hold | rfl
  · rcases h e hold with ⟨v, hv, hle⟩
    rcases tryPush_vfind_le path z c (skey e.1) v hv with ⟨v2, hv2, hle2⟩
    exact ⟨v2, hv2, le_trans hle2 hle⟩
  · exact tryPush_self path z c

/-! Fold versions of the push lemmas, over a whole candidate list. -/

/-- Queue membership survives a sequence of pushes. -/
theorem pushAll_queue_mono (path : List SearchState) :
    ∀ (cs : List SearchState)
      (z : List (SearchState × List SearchState) × List ((String × Nat × Nat) × Nat))
      (e : SearchState × List SearchState), e ∈ z.1 →
      e ∈ (cs.foldl (tryPush path) z).1 := by
  intro cs
  induction cs with
  | nil => intro z e h; exact h
  | cons c tl ih =>
    intro z e h
    exact ih (tryPush path z c) e (tryPush_queue_mono path z c e h)

/-- Every queue entry after a sequence of pushes is an old entry or one
of the pushed candidates with its extended path. -/
theorem pushAll_queue_cases (path : List SearchState) :
    ∀ (cs : List SearchState)
      (z : List (SearchState × List SearchState) × List ((String × Nat × Nat) × Nat))
      (e : SearchState × List SearchState), e ∈ (cs.foldl (tryPush path) z).1 →
      e ∈ z.1 ∨ ∃ c ∈ cs, e = (c, path ++ [c]) := by
  intro cs
  induction cs with
  | nil => intro z e h; exact Or.inl h
  | cons c tl ih =>
    intro z e h
    rcases ih (tryPush path z c) e h with h2 | ⟨c2, hc2, rfl⟩
    · rcases tryPush_queue_cases path z c e h2 with h3 | rfl
      · exact Or.inl h3
      · exact Or.inr ⟨c, List.mem_cons_self _ _, rfl⟩
    · exact Or.inr ⟨c2, List.mem_cons_of_mem _ hc2, rfl⟩

/-- Visited-map values never increase across a sequence of pushes. -/
theorem pushAll_vfind_le (path : List SearchState) :
    ∀ (cs : List SearchState)
      (z : List (SearchState × List SearchState) × List ((String × Nat × Nat) × Nat))
      (k : String × Nat × Nat) (v : Nat), vfind z.2 k = some v →
      ∃ v2, vfind ((cs.foldl (tryPush path) z).2) k = some v2 ∧ v2 ≤ v := by
  intro cs
  induction cs with
  | nil => intro z k v h; exact ⟨v, h, le_rfl⟩
  | cons c tl ih =>
    intro z k v h
    rcases tryPush_vfind_le path z c k v h with ⟨v1, hv1, hle1⟩
    rcases ih (tryPush path z c) k v1 hv1 with ⟨v2, hv2, hle2⟩
    exact ⟨v2, hv2, le_trans hle2 hle1⟩

/-- Any visited-map value after a sequence of pushes was already present,
or belongs to an entry of the final queue with that exact key and value. -/
theorem pushAll_vfind_new (path : List SearchState) :
    ∀ (cs : List SearchState)
      (z : List (SearchState × List SearchState) × List ((String × Nat × Nat) × Nat))
      (k : String × Nat × Nat) (v : Nat),
      vfind ((cs.foldl (tryPush path) z).2) k = some v →
      vfind z.2 k = some v ∨
        ∃ e ∈ (cs.foldl (tryPush path) z).1, skey e.1 = k ∧ e.1.encounters = v := by
  intro cs
  induction cs with
  | nil => intro z k v h; exact Or.inl h
  | cons c tl ih =>
    intro z k v h
    rcases ih (tryPush path z c) k v h with h2 | h2
    · rcases tryPush_vfind_new path z c k v h2 with h3 | ⟨e, he, hk, hv⟩
      · exact Or.inl h3
      · exact Or.inr ⟨e, pushAll_queue_mono path tl _ e he, hk, hv⟩
    · exact Or.inr h2

/-- After pushing every candidate, each candidate's key carries a visited
value at most its encounter count. -/
theorem pushAll_self (path : List SearchState) :
    ∀ (cs : List SearchState)
      (z : List (SearchState × List SearchState) × List ((String × Nat × Nat) × Nat))
      (c0 : SearchState), c0 ∈ cs →
      ∃ v2, vfind ((cs.foldl (tryPush path) z).2) (skey c0) = some v2 ∧
        v2 ≤ c0.encounters := by
  intro cs
  induction cs with
  | nil => intro z c0 h; cases h
  | cons c tl ih =>
    intro z c0 h
    rcases List.mem_cons.1 h with rfl | h
    · rcases tryPush_self path z c0 with ⟨v1, hv1, hle1⟩
      rcases pushAll_vfind_le path tl (tryPush path z c0) (skey c0) v1 hv1 with
        ⟨v2, hv2, hle2⟩
      exact ⟨v2, hv2, le_trans hle2 hle1⟩
    · exact ih (tryPush path z c) c0 h

/-- A sequence of pushes preserves the queue-visited bound. -/
theorem pushAll_vqle (path : List SearchState) :
    ∀ (cs : List SearchState)
      (z : List (SearchState × List SearchState) × List ((String × Nat × Nat) × Nat)),
      (∀ e ∈ z.1, ∃ v, vfind z.2 (skey e.1) = some v ∧ v ≤ e.1.encounters) →
      ∀ e ∈ (cs.foldl (tryPush path) z).1,
        ∃ v, vfind ((cs.foldl (tryPush path) z).2) (skey e.1) = some v ∧
          v ≤ e.1.encounters := by
  intro cs
  induction cs with
  | nil => intro z h; exact h
  | cons c tl ih =>
    intro z h
    exact ih (tryPush path z c) (tryPush_vqle path z c h)

/-! The search-loop invariant. -/

/-- Single-step relation: b is a successor state of a. -/
def ValidSucc (pf : PathFinder) (a b : SearchState) : Prop := b ∈ candidates pf a

/-- Well-formedness of one queue entry: its path leads from the initial
state to its state through successor steps. -/
def PathOk (pf : PathFinder) (start : String)
    (e : SearchState × List SearchState) : Prop :=
  e.2 ≠ [] ∧ e.2.head? = some (initState pf start) ∧ e.2.getLast? = some e.1 ∧
  List.Chain' (ValidSucc pf) e.2

/-- Every queue entry is well-formed. -/
def QInv (pf : PathFinder) (start : String)
    (Q : List (SearchState × List SearchState)) : Prop :=
  ∀ e ∈ Q, PathOk pf start e

/-- Well-formedness of a recorded best solution: a well-formed path whose
final state is at the destination within the countdown and realizes the
recorded encounter count. -/
def BestOk (pf : PathFinder) (start dest : String) (cd : Nat)
    (b : Nat × List SearchState) : Prop :=
  b.2 ≠ [] ∧ b.2.head? = some (initState pf start) ∧
  List.Chain' (ValidSucc pf) b.2 ∧
  ∃ w, b.2.getLast? = some w ∧ w.planet = dest ∧ w.day ≤ cd ∧ w.encounters = b.1

/-- The best solution, when recorded, is well-formed. -/
def BInv (pf : PathFinder) (start dest : String) (cd : Nat)
    (best : Option (Nat × List SearchState)) : Prop :=
  ∀ b, best = some b → BestOk pf start dest cd b

/-- Every queued state is dominated by its visited-map entry. -/
def VQLe (Q : List (SearchState × List SearchState))
    (V : List ((String × Nat × Nat) × Nat)) : Prop :=
  ∀ e ∈ Q, ∃ v, vfind V (skey e.1) = some v ∧ v ≤ e.1.encounters

/-- The initial key keeps its zero entry. -/
def VInit (pf : PathFinder) (start : String)
    (V : List ((String × Nat × Nat) × Nat)) : Prop :=
  vfind V (skey (initState pf start)) = some 0

/-- Some queue entry's state has exactly this key and encounter count. -/
def OpenWit (Q : List (SearchState × List SearchState))
    (k : String × Nat × Nat) (v : Nat) : Prop :=
  ∃ e ∈ Q, skey e.1 = k ∧ e.1.encounters = v

/-- All key-level successors of k have been relaxed in V from value v. -/
def RelaxedK (pf : PathFinder) (k : String × Nat × Nat) (v : Nat)
    (V : List ((String × Nat × Nat) × Nat)) : Prop :=
  ∀ kd ∈ candK pf k, ∃ v2, vfind V kd.1 = some v2 ∧ v2 ≤ v + kd.2

/-- Every visited non-destination key within the countdown whose value
still beats the best is open in the queue or fully relaxed. -/
def Inv2 (pf : PathFinder) (dest : String) (cd : Nat)
    (Q : List (SearchState × List SearchState))
    (V : List ((String × Nat × Nat) × Nat))
    (best : Option (Nat × List SearchState)) : Prop :=
  ∀ k v, vfind V k = some v → k.1 ≠ dest → k.2.1 ≤ cd →
    encLtBest v best = true → OpenWit Q k v ∨ RelaxedK pf k v V

/-- Every visited destination key within the countdown is open in the
queue or already dominated by the best. -/
def Inv3 (dest : String) (cd : Nat)
    (Q : List (SearchState × List SearchState))
    (V : List ((String × Nat × Nat) × Nat))
    (best : Option (Nat × List SearchState)) : Prop :=
  ∀ k v, vfind V k = some v → k.1 = dest → k.2.1 ≤ cd →
    OpenWit Q k v ∨ encLtBest v best = false

/-- The full loop invariant. -/
def Inv (pf : PathFinder) (start dest : String) (cd : Nat)
    (Q : List (SearchState × List SearchState))
    (V : List ((String × Nat × Nat) × Nat))
    (best : Option (Nat × List SearchState)) : Prop :=
  QInv pf start Q ∧ BInv pf start dest cd best ∧ VQLe Q V ∧
  VInit pf start V ∧ Inv2 pf dest cd Q V best ∧ Inv3 dest cd Q V best

/-- Case analysis of an open witness over a cons queue. -/
theorem openWit_cons (s : SearchState) (path : List SearchState)
    (rest : List (SearchState × List SearchState))
    (k : String × Nat × Nat) (v : Nat) :
    OpenWit ((s, path) :: rest) k v ↔
      (skey s = k ∧ s.encounters = v) ∨ OpenWit rest k v := by
  constructor
  · rintro ⟨e, he, hk, hv⟩
    rcases List.mem_cons.1 he with rfl | he
    · exact Or.inl ⟨hk, hv⟩
    · exact Or.inr ⟨e, he, hk, hv⟩
  · rintro (⟨hk, hv⟩ | ⟨e, he, hk, hv⟩)
    · exact ⟨(s, path), List.mem_cons_self _ _, hk, hv⟩
    · exact ⟨e, List.mem_cons_of_mem _ he, hk, hv⟩

/-- The best-comparison is false exactly when a best value at most e is
already recorded. -/
theorem encLtBest_false_iff (e : Nat) (best : Option (Nat × List SearchState)) :
    encLtBest e best = false ↔ ∃ m p0, best = some (m, p0) ∧ m ≤ e := by
  cases best with
  | none => simp [encLtBest]
  | some b =>
    obtain ⟨m, p0⟩ := b
    simp [encLtBest]

/-- The best-comparison is true exactly when e beats any recorded best. -/
theorem encLtBest_true_iff (e : Nat) (best : Option (Nat × List SearchState)) :
    encLtBest e best = true ↔ ∀ m p0, best = some (m, p0) → e < m := by
  cases best with
  | none => simp [encLtBest]
  | some b =>
    obtain ⟨m, p0⟩ := b
    simp [encLtBest]

/-- The expansion is a fold of pushes over the candidate list. -/
theorem expand_def (pf : PathFinder) (s : SearchState) (path : List SearchState)
    (rest : List (SearchState × List SearchState))
    (V : List ((String × Nat × Nat) × Nat)) :
    expand pf s path rest V = (candidates pf s).foldl (tryPush path) (rest, V) := rfl

/-- First component of a state's key. -/
theorem skey_fst (s : SearchState) : (skey s).1 = s.planet := rfl

/-- Day component of a state's key. -/
theorem skey_day (s : SearchState) : (skey s).2.1 = s.day := rfl

/-- Invariant preservation when a state beyond the countdown is dropped. -/
theorem inv_step_day (pf : PathFinder) (start dest : String) (cd : Nat)
    (s : SearchState) (path : List SearchState)
    (rest : List (SearchState × List SearchState))
    (V : List ((String × Nat × Nat) × Nat)) (best : Option (Nat × List SearchState))
    (hinv : Inv pf start dest cd ((s, path) :: rest) V best)
    (hday : cd < s.day) : Inv pf start dest cd rest V best := by
  obtain ⟨hq, hb, hvq, hvi, h2, h3⟩ := hinv
  refine ⟨fun e he => hq e (List.mem_cons_of_mem _ he), hb,
    fun e he => hvq e (List.mem_cons_of_mem _ he), hvi, ?_, ?_⟩
  · intro k v hkv hkd hkcd hlt
    rcases h2 k v hkv hkd hkcd hlt with hw | hr
    · rcases (openWit_cons s path rest k v).1 hw with ⟨hk, _⟩ | hw
      · exfalso
        have hkd2 : k.2.1 = s.day := by rw [← hk]; rfl
        omega
      · exact Or.inl hw
    · exact Or.inr hr
  · intro k v hkv hkd hkcd
    rcases h3 k v hkv hkd hkcd with hw | hf
    · rcases (openWit_cons s path rest k v).1 hw with ⟨hk, _⟩ | hw
      · exfalso
        have hkd2 : k.2.1 = s.day := by rw [← hk]; rfl
        omega
      · exact Or.inl hw
    · exact Or.inr hf

/-- Invariant preservation when a state no better than the best is
dropped. -/
theorem inv_step_prune (pf : PathFinder) (start dest : String) (cd : Nat)
    (s : SearchState) (path : List SearchState)
    (rest : List (SearchState × List SearchState))
    (V : List ((String × Nat × Nat) × Nat)) (best : Option (Nat × List SearchState))
    (hinv : Inv pf start dest cd ((s, path) :: rest) V best)
    (hpr : encLtBest s.encounters best = false) :
    Inv pf start dest cd rest V best := by
  obtain ⟨hq, hb, hvq, hvi, h2, h3⟩ := hinv
  refine ⟨fun e he => hq e (List.mem_cons_of_mem _ he), hb,
    fun e he => hvq e (List.mem_cons_of_mem _ he), hvi, ?_, ?_⟩
  · intro k v hkv hkd hkcd hlt
    rcases h2 k v hkv hkd hkcd hlt with hw | hr
    · rcases (openWit_cons s path rest k v).1 hw with ⟨_, hv⟩ | hw
      · exfalso; rw [← hv, hpr] at hlt; cases hlt
      · exact Or.inl hw
    · exact Or.inr hr
  · intro k v hkv hkd hkcd
    rcases h3 k v hkv hkd hkcd with hw | hf
    · rcases (openWit_cons s path rest k v).1 hw with ⟨_, hv⟩ | hw
      · exact Or.inr (hv ▸ hpr)
      · exact Or.inl hw
    · exact Or.inr hf

/-- Invariant preservation when a destination state updates the best. -/
theorem inv_step_dest (pf : PathFinder) (start dest : String) (cd : Nat)
    (s : SearchState) (path : List SearchState)
    (rest : List (SearchState × List SearchState))
    (V : List ((String × Nat × Nat) × Nat)) (best : Option (Nat × List SearchState))
    (hinv : Inv pf start dest cd ((s, path) :: rest) V best)
    (hday : ¬ cd < s.day) (hbt : encLtBest s.encounters best = true)
    (hpl : s.planet = dest) :
    Inv pf start dest cd rest V (some (s.encounters, path)) := by
  obtain ⟨hq, hb, hvq, hvi, h2, h3⟩ := hinv
  obtain ⟨hne, hhead, hlast, hchain⟩ := hq (s, path) (List.mem_cons_self _ _)
  refine ⟨fun e he => hq e (List.mem_cons_of_mem _ he), ?_,
    fun e he => hvq e (List.mem_cons_of_mem _ he), hvi, ?_, ?_⟩
  · intro b hbeq
    obtain rfl : b = (s.encounters, path) := (Option.some.inj hbeq).symm
    exact ⟨hne, hhead, hchain, s, hlast, hpl, by omega, rfl⟩
  · intro k v hkv hkd hkcd hlt
    have hlt0 : encLtBest v best = true := by
      rw [encLtBest_true_iff] at hlt ⊢
      intro m p0 hbm
      have ha := hlt s.encounters path rfl
      have hc := (encLtBest_true_iff _ _).1 hbt m p0 hbm
      omega
    rcases h2 k v hkv hkd hkcd hlt0 with hw | hr
    · rcases (openWit_cons s path rest k v).1 hw with ⟨hk, _⟩ | hw
      · exfalso; apply hkd; rw [← hk, skey_fst, hpl]
      · exact Or.inl hw
    · exact Or.inr hr
  · intro k v hkv hkd hkcd
    rcases h3 k v hkv hkd hkcd with hw | hf
    · rcases (openWit_cons s path rest k v).1 hw with ⟨_, hv⟩ | hw
      · right
        rw [encLtBest_false_iff]
        exact ⟨s.encounters, path, rfl, by omega⟩
      · exact Or.inl hw
    · right
      rw [encLtBest_false_iff] at hf ⊢
      obtain ⟨m, p0, hbm, hmv⟩ := hf
      have hc := (encLtBest_true_iff _ _).1 hbt m p0 hbm
      exact ⟨s.encounters, path, rfl, by omega⟩

/-- Invariant preservation when a non-destination state is expanded. -/
theorem inv_step_expand (pf : PathFinder) (start dest : String) (cd : Nat)
    (s : SearchState) (path : List SearchState)
    (rest : List (SearchState × List SearchState))
    (V : List ((String × Nat × Nat) × Nat)) (best : Option (Nat × List SearchState))
    (hinv : Inv pf start dest cd ((s, path) :: rest) V best)
    (hpl : s.planet ≠ dest) :
    Inv pf start dest cd (expand pf s path rest V).1 (expand pf s path rest V).2
      best := by
  obtain ⟨hq, hb, hvq, hvi, h2, h3⟩ := hinv
  obtain ⟨hne, hhead, hlast, hchain⟩ := hq (s, path) (List.mem_cons_self _ _)
  rw [expand_def]
  have hrest : ∀ e ∈ rest, PathOk pf start e :=
    fun e he => hq e (List.mem_cons_of_mem _ he)
  have hvqr : ∀ e ∈ rest, ∃ v, vfind V (skey e.1) = some v ∧ v ≤ e.1.encounters :=
    fun e he => hvq e (List.mem_cons_of_mem _ he)
  refine ⟨?_, hb, ?_, ?_, ?_, ?_⟩
  · intro e he
    rcases pushAll_queue_cases path (candidates pf s) (rest, V) e he with
      hold | ⟨c, hc, rfl⟩
    · exact hrest e hold
    · refine ⟨by simp, ?_, ?_, ?_⟩
      · show (path ++ [c]).head? = some (initState pf start)
        rw [List.head?_append_of_ne_nil path hne]
        exact hhead
      · show (path ++ [c]).getLast? = some c
        rw [List.getLast?_append_of_ne_nil path (by simp)]
        rfl
      · show List.Chain' (ValidSucc pf) (path ++ [c])
        refine List.Chain'.append hchain (List.chain'_singleton c) ?_
        intro x hx y hy
        rw [hlast] at hx
        have hx2 : s = x := by simpa using hx
        have hy2 : c = y := by simpa using hy
        subst hx2
        subst hy2
        exact hc
  · exact pushAll_vqle path (candidates pf s) (rest, V) hvqr
  · rcases pushAll_vfind_le path (candidates pf s) (rest, V) _ 0 hvi with
      ⟨v2, hv2, hle⟩
    obtain rfl : v2 = 0 := Nat.le_zero.1 hle
    exact hv2
  · intro k v hkv hkd hkcd hlt
    rcases pushAll_vfind_new path (candidates pf s) (rest, V) k v hkv with hold | hw
    · rcases h2 k v hold hkd hkcd hlt with hwit | hrel
      · rcases (openWit_cons s path rest k v).1 hwit with ⟨hk, hv⟩ | hwit2
        · right
          intro kd hkd2
          obtain ⟨⟨kp, kdy, kf⟩, d⟩ := kd
          rw [← hk] at hkd2
          have hc : SearchState.mk kp kdy kf (s.encounters + d) ∈ candidates pf s :=
            (mem_candidates pf s _).2 ⟨((kp, kdy, kf), d), hkd2, rfl⟩
          rcases pushAll_self path (candidates pf s) (rest, V) _ hc with
            ⟨v2, hv2, hle⟩
          refine ⟨v2, hv2, ?_⟩
          have hle2 : v2 ≤ s.encounters + d := hle
          omega
        · left
          obtain ⟨e, he, hek, hev⟩ := hwit2
          exact ⟨e, pushAll_queue_mono path (candidates pf s) (rest, V) e he,
            hek, hev⟩
      · right
        intro kd hkd2
        rcases hrel kd hkd2 with ⟨v2, hv2, hle⟩
        rcases pushAll_vfind_le path (candidates pf s) (rest, V) kd.1 v2 hv2 with
          ⟨v3, hv3, hle3⟩
        exact ⟨v3, hv3, le_trans hle3 hle⟩
    · exact Or.inl hw
  · intro k v hkv hkd hkcd
    rcases pushAll_vfind_new path (candidates pf s) (rest, V) k v hkv with hold | hw
    · rcases h3 k v hold hkd hkcd with hwit | hf
      · rcases (openWit_cons s path rest k v).1 hwit with ⟨hk, _⟩ | hwit2
        · exfalso
          apply hpl
          rw [← skey_fst s, hk]
          exact hkd
        · left
          obtain ⟨e, he, hek, hev⟩ := hwit2
          exact ⟨e, pushAll_queue_mono path (candidates pf s) (rest, V) e he,
            hek, hev⟩
      · exact Or.inr hf
    · exact Or.inl hw

/-- The invariant holds for the initial queue, visited map and best. -/
theorem inv_initial (pf : PathFinder) (start dest : String) (cd : Nat) :
    Inv pf start dest cd [(initState pf start, [initState pf start])]
      [(skey (initState pf start), 0)] none := by
  refine ⟨?_, ?_, ?_, ?_, ?_, ?_⟩
  · intro e he
    obtain rfl := List.mem_singleton.1 he
    exact ⟨by simp, rfl, by simp, List.chain'_singleton _⟩
  · intro b hb
    cases hb
  · intro e he
    obtain rfl := List.mem_singleton.1 he
    refine ⟨0, ?_, Nat.zero_le _⟩
    rw [vfind_cons, if_pos rfl]
  · show vfind _ _ = some 0
    rw [vfind_cons, if_pos rfl]
  · intro k v hkv hkd hkcd hlt
    rw [vfind_cons] at hkv
    by_cases hk : k = skey (initState pf start)
    · rw [if_pos hk] at hkv
      obtain rfl : (0 : Nat) = v := Option.some.inj hkv
      left
      exact ⟨(initState pf start, [initState pf start]), List.mem_singleton.2 rfl,
        hk.symm, rfl⟩
    · rw [if_neg hk] at hkv
      cases hkv
  · intro k v hkv hkd hkcd
    rw [vfind_cons] at hkv
    by_cases hk : k = skey (initState pf start)
    · rw [if_pos hk] at hkv
      obtain rfl : (0 : Nat) = v := Option.some.inj hkv
      left
      exact ⟨(initState pf start, [initState pf start]), List.mem_singleton.2 rfl,
        hk.symm, rfl⟩
    · rw [if_neg hk] at hkv
      cases hkv

/-- Any completed run of the search loop from an invariant-satisfying
state ends with the invariant holding on an empty queue, and returns the
finish value of the final best. -/
theorem searchLoop_inv (pf : PathFinder) (start dest : String) (cd : Nat) :
    ∀ (fl : Nat) (Q : List (SearchState × List SearchState))
      (V : List ((String × Nat × Nat) × Nat))
      (best : Option (Nat × List SearchState))
      (res : Int × Option (List SearchState)),
      Inv pf start dest cd Q V best →
      searchLoop pf dest cd fl Q V best = some res →
      ∃ V2 best2, Inv pf start dest cd [] V2 best2 ∧ res = finishResult best2 := by
  intro fl
  induction fl with
  | zero =>
    intro Q V best res hinv hres
    cases Q with
    | nil =>
      rw [searchLoop_nil] at hres
      exact ⟨V, best, hinv, (Option.some.inj hres).symm⟩
    | cons e rest =>
      obtain ⟨s, path⟩ := e
      rw [searchLoop_cons_zero] at hres
      cases hres
  | succ k ih =>
    intro Q V best res hinv hres
    cases Q with
    | nil =>
      rw [searchLoop_nil] at hres
      exact ⟨V, best, hinv, (Option.some.inj hres).symm⟩
    | cons e rest =>
      obtain ⟨s, path⟩ := e
      rw [searchLoop_cons_succ] at hres
      by_cases hday : cd < s.day
      · rw [if_pos hday] at hres
        exact ih rest V best res
          (inv_step_day pf start dest cd s path rest V best hinv hday) hres
      · rw [if_neg hday] at hres
        by_cases hpr : encLtBest s.encounters best = false
        · rw [if_pos hpr] at hres
          exact ih rest V best res
            (inv_step_prune pf start dest cd s path rest V best hinv hpr) hres
        · rw [if_neg hpr] at hres
          have hbt : encLtBest s.encounters best = true := by
            revert hpr
            cases encLtBest s.encounters best <;> simp
          by_cases hpl : s.planet = dest
          · rw [if_pos hpl, if_pos hbt] at hres
            exact ih rest V (some (s.encounters, path)) res
              (inv_step_dest pf start dest cd s path rest V best hinv hday hbt hpl)
              hres
          · rw [if_neg hpl] at hres
            exact ih (expand pf s path rest V).1 (expand pf s path rest V).2 best
              res (inv_step_expand pf start dest cd s path rest V best hinv hpl)
              hres

/-- Completeness core: once the queue is empty, every valid path from the
initial state whose final day fits the countdown is dominated by the best
or by its own visited-map entry. -/
theorem final_walk (pf : PathFinder) (start dest : String) (cd : Nat)
    (V : List ((String × Nat × Nat) × Nat)) (best : Option (Nat × List SearchState))
    (hinv : Inv pf start dest cd [] V best) :
    ∀ (p : List SearchState) (w : SearchState),
      p.head? = some (initState pf start) → List.Chain' (ValidSucc pf) p →
      p.getLast? = some w → w.day ≤ cd →
      (∃ b, best = some b ∧ b.1 ≤ w.encounters) ∨
        ∃ v, vfind V (skey w) = some v ∧ v ≤ w.encounters := by
  obtain ⟨hq, hb, hvq, hvi, h2, h3⟩ := hinv
  intro p
  induction p using List.reverseRecOn with
  | nil => intro w hh; simp at hh
  | append_singleton q a ihq =>
    intro w hh hchain hlast hday
    rw [List.getLast?_append_of_ne_nil q (by simp)] at hlast
    have hwa : a = w := by simpa using hlast
    subst hwa
    cases q with
    | nil =>
      have hh2 : a = initState pf start := by simpa using hh
      subst hh2
      right
      exact ⟨0, hvi, Nat.zero_le _⟩
    | cons q0 qtl =>
      have hqne : (q0 :: qtl) ≠ [] := by simp
      rw [List.head?_append_of_ne_nil (q0 :: qtl) hqne] at hh
      obtain ⟨hch1, _, hlink⟩ := List.chain'_append.1 hchain
      obtain ⟨t, ht⟩ : ∃ t, (q0 :: qtl).getLast? = some t := by
        cases hgl : (q0 :: qtl).getLast? with
        | none => simp at hgl
        | some t => exact ⟨t, rfl⟩
      have hstep : ValidSucc pf t a := by
        apply hlink
        · rw [ht]; rfl
        · rfl
      have hbnds := mem_candidates_bounds pf t a hstep
      have hdayt : t.day ≤ cd := le_trans hbnds.1 hday
      rcases ihq t hh hch1 ht hdayt with ⟨b, hbb, hble⟩ | ⟨v, hv, hvle⟩
      · exact Or.inl ⟨b, hbb, le_trans hble hbnds.2.1⟩
      · by_cases hlt : encLtBest v best = true
        · by_cases hdt : t.planet = dest
          · rcases h3 (skey t) v hv hdt hdayt with ⟨e, he, _⟩ | hf
            · exact absurd he (List.not_mem_nil e)
            · rw [hf] at hlt; cases hlt
          · rcases h2 (skey t) v hv hdt hdayt hlt with ⟨e, he, _⟩ | hrel
            · exact absurd he (List.not_mem_nil e)
            · rcases (mem_candidates pf t a).1 hstep with ⟨kd, hkd, hae⟩
              obtain ⟨⟨kp, kdy, kf⟩, dd⟩ := kd
              rcases hrel _ hkd with ⟨v2, hv2, hle2⟩
              right
              refine ⟨v2, ?_, ?_⟩
              · rw [hae]
                exact hv2
              · have henc : a.encounters = t.encounters + dd := by rw [hae]
                omega
        · have hf : encLtBest v best = false := by
            revert hlt
            cases encLtBest v best <;> simp
          obtain ⟨m, p0, hbm, hmv⟩ := (encLtBest_false_iff v best).1 hf
          exact Or.inl ⟨(m, p0), hbm, by omega⟩

/-- Completeness at the destination: once the queue is empty, a recorded
best exists and is at most the encounter count of any valid path reaching
the destination within the countdown. -/
theorem final_dest (pf : PathFinder) (start dest : String) (cd : Nat)
    (V : List ((String × Nat × Nat) × Nat)) (best : Option (Nat × List SearchState))
    (hinv : Inv pf start dest cd [] V best)
    (p : List SearchState) (w : SearchState)
    (hh : p.head? = some (initState pf start))
    (hchain : List.Chain' (ValidSucc pf) p)
    (hlast : p.getLast? = some w) (hday : w.day ≤ cd) (hpl : w.planet = dest) :
    ∃ b, best = some b ∧ b.1 ≤ w.encounters := by
  rcases final_walk pf start dest cd V best hinv p w hh hchain hlast hday with
    h | ⟨v, hv, hvle⟩
  · exact h
  · obtain ⟨hq, hb, hvq, hvi, h2, h3⟩ := hinv
    rcases h3 (skey w) v hv hpl hday with ⟨e, he, _⟩ | hf
    · exact absurd he (List.not_mem_nil e)
    · obtain ⟨m, p0, hbm, hmv⟩ := (encLtBest_false_iff v best).1 hf
      exact ⟨(m, p0), hbm, by omega⟩

/-- A successful non-erroring run either took the disconnected
short-circuit or ran the search loop to completion. -/
theorem find_ok_cases (pf : PathFinder) (fc fl : Nat) (start dest : String)
    (cd : Nat) (res : Int × Option (List SearchState))
    (h : find_min_encounters pf fc fl start dest cd = .ok (some res)) :
    (Galaxy.is_connected fc pf.galaxy start dest = some false ∧ res = (-1, none)) ∨
    (Galaxy.is_connected fc pf.galaxy start dest = some true ∧
      searchLoop pf dest cd fl [(initState pf start, [initState pf start])]
        [(skey (initState pf start), 0)] none = some res) := by
  unfold find_min_encounters at h
  by_cases h1 : pf.galaxy.has_planet start = false
  · rw [if_pos h1] at h
    simp at h
  · rw [if_neg h1] at h
    by_cases h2 : pf.galaxy.has_planet dest = false
    · rw [if_pos h2] at h
      simp at h
    · rw [if_neg h2] at h
      cases hic : Galaxy.is_connected fc pf.galaxy start dest with
      | none =>
        rw [hic] at h
        simp at h
      | some b =>
        rw [hic] at h
        cases b with
        | false =>
          left
          refine ⟨rfl, ?_⟩
          have h4 : some ((-1 : Int), (none : Option (List SearchState))) = some res :=
            Except.ok.inj h
          exact (Option.some.inj h4).symm
        | true =>
          right
          exact ⟨rfl, Except.ok.inj h⟩

/-- C1: a successful non-(-1) result carries a non-empty path whose first
state is the initial state (start, day 0, full fuel, zero encounters) and
whose final state is at the destination no later than the countdown. -/
theorem C1_path_endpoints (pf : PathFinder) (fc fl : Nat) (start dest : String)
    (cd : Nat) (e : Int) (pOpt : Option (List SearchState))
    (h : find_min_encounters pf fc fl start dest cd = .ok (some (e, pOpt)))
    (hne : e ≠ -1) :
    ∃ p, pOpt = some p ∧ p ≠ [] ∧
      p.head? = some (SearchState.mk start 0 pf.autonomy 0) ∧
      ∃ w, p.getLast? = some w ∧ w.planet = dest ∧ w.day ≤ cd := by
  rcases find_ok_cases pf fc fl start dest cd (e, pOpt) h with ⟨_, hres⟩ | ⟨_, hloop⟩
  · simp [Prod.ext_iff] at hres
    exact absurd hres.1 hne
  · rcases searchLoop_inv pf start dest cd fl _ _ _ _
      (inv_initial pf start dest cd) hloop with ⟨V2, best2, hinv2, hres⟩
    obtain ⟨_, hb2, _, _, _, _⟩ := hinv2
    cases best2 with
    | none =>
      simp [finishResult, Prod.ext_iff] at hres
      exact absurd hres.1 hne
    | some b =>
      obtain ⟨m, bp⟩ := b
      obtain ⟨hne2, hhead, hchain, w, hlastw, hwpl, hwday, hwenc⟩ := hb2 (m, bp) rfl
      have hres2 : e = (m : Int) ∧ pOpt = some bp := by
        simpa [finishResult, Prod.ext_iff] using hres
      exact ⟨bp, hres2.2, hne2, hhead, w, hlastw, hwpl, hwday⟩

/-- C1 witness: the one-route galaxy with start A and destination B. -/
theorem C1_path_endpoints_witness :
    ∃ p, some [initState exPF ("A"), SearchState.mk ("B") 1 0 0] = some p ∧
      p ≠ [] ∧
      p.head? = some (SearchState.mk ("A") 0 exPF.autonomy 0) ∧
      ∃ w, p.getLast? = some w ∧ w.planet = ("B") ∧ w.day ≤ 1 :=
  C1_path_endpoints exPF 3 4 ("A") ("B") 1 0
    (some [initState exPF ("A"), SearchState.mk ("B") 1 0 0]) rfl (by decide)

/-- C5: along any returned path, the encounter count never decreases and
each step adds at most one encounter. -/
theorem C5_monotone_encounters (pf : PathFinder) (fc fl : Nat)
    (start dest : String) (cd : Nat) (e : Int) (pOpt : Option (List SearchState))
    (h : find_min_encounters pf fc fl start dest cd = .ok (some (e, pOpt)))
    (hne : e ≠ -1) :
    ∃ p, pOpt = some p ∧ List.Chain'
      (fun a b => a.encounters ≤ b.encounters ∧
        b.encounters ≤ a.encounters + 1) p := by
  rcases find_ok_cases pf fc fl start dest cd (e, pOpt) h with ⟨_, hres⟩ | ⟨_, hloop⟩
  · simp [Prod.ext_iff] at hres
    exact absurd hres.1 hne
  · rcases searchLoop_inv pf start dest cd fl _ _ _ _
      (inv_initial pf start dest cd) hloop with ⟨V2, best2, hinv2, hres⟩
    obtain ⟨_, hb2, _, _, _, _⟩ := hinv2
    cases best2 with
    | none =>
      simp [finishResult, Prod.ext_iff] at hres
      exact absurd hres.1 hne
    | some b =>
      obtain ⟨m, bp⟩ := b
      obtain ⟨hne2, hhead, hchain, w, hlastw, hwpl, hwday, hwenc⟩ := hb2 (m, bp) rfl
      have hres2 : e = (m : Int) ∧ pOpt = some bp := by
        simpa [finishResult, Prod.ext_iff] using hres
      refine ⟨bp, hres2.2, ?_⟩
      refine List.Chain'.imp ?_ hchain
      intro a b hab
      have hbnds := mem_candidates_bounds pf a b hab
      exact ⟨hbnds.2.1, hbnds.2.2⟩

/-- C5 witness: the same concrete run as the C1 witness. -/
theorem C5_monotone_encounters_witness :
    ∃ p, some [initState exPF ("A"), SearchState.mk ("B") 1 0 0] = some p ∧
      List.Chain' (fun a b => a.encounters ≤ b.encounters ∧
        b.encounters ≤ a.encounters + 1) p :=
  C5_monotone_encounters exPF 3 4 ("A") ("B") 1 0
    (some [initState exPF ("A"), SearchState.mk ("B") 1 0 0]) rfl (by decide)

/-- C4: with the graph, schedule, autonomy, start and destination fixed,
raising the countdown keeps the result solvable and never increases the
minimum encounter count. -/
theorem C4_deadline_monotone (pf : PathFinder) (fc fl1 fl2 : Nat)
    (start dest : String) (cd1 cd2 : Nat) (e1 e2 : Int)
    (p1 p2 : Option (List SearchState))
    (hcd : cd1 ≤ cd2)
    (h1 : find_min_encounters pf fc fl1 start dest cd1 = .ok (some (e1, p1)))
    (hne : e1 ≠ -1)
    (h2 : find_min_encounters pf fc fl2 start dest cd2 = .ok (some (e2, p2))) :
    e2 ≠ -1 ∧ e2 ≤ e1 := by
  rcases find_ok_cases pf fc fl1 start dest cd1 (e1, p1) h1 with ⟨_, hres⟩ | ⟨hic, hloop1⟩
  · simp [Prod.ext_iff] at hres
    exact absurd hres.1 hne
  · rcases searchLoop_inv pf start dest cd1 fl1 _ _ _ _
      (inv_initial pf start dest cd1) hloop1 with ⟨V2, best2, hinv2, hres1⟩
    cases best2 with
    | none =>
      simp [finishResult, Prod.ext_iff] at hres1
      exact absurd hres1.1 hne
    | some b =>
      obtain ⟨m1, bp⟩ := b
      obtain ⟨_, hb2, _, _, _, _⟩ := hinv2
      obtain ⟨hne2, hhead, hchain, w, hlastw, hwpl, hwday, hwenc⟩ := hb2 (m1, bp) rfl
      have he1 : e1 = (m1 : Int) := by
        have := hres1
        simp [finishResult, Prod.ext_iff] at this
        exact this.1
      rcases find_ok_cases pf fc fl2 start dest cd2 (e2, p2) h2 with ⟨hic2, _⟩ | ⟨_, hloop2⟩
      · rw [hic] at hic2
        cases hic2
      · rcases searchLoop_inv pf start dest cd2 fl2 _ _ _ _
          (inv_initial pf start dest cd2) hloop2 with ⟨V3, best3, hinv3, hres2⟩
        obtain ⟨b3, hbest3, hble⟩ := final_dest pf start dest cd2 V3 best3 hinv3
          bp w hhead hchain hlastw (le_trans hwday hcd) hwpl
        obtain ⟨m3, bp3⟩ := b3
        have he2 : e2 = (m3 : Int) := by
          rw [hbest3] at hres2
          simp [finishResult, Prod.ext_iff] at hres2
          exact hres2.1
        have hm3 : m3 ≤ m1 := by
          have : w.encounters = m1 := hwenc
          simpa [this] using hble
        constructor
        · rw [he2]
          omega
        · rw [he2, he1]
          omega

/-- C4 witness: the one-route galaxy with countdowns 1 and 2. -/
theorem C4_deadline_monotone_witness : (0 : Int) ≠ -1 ∧ (0 : Int) ≤ 0 :=
  C4_deadline_monotone exPF 3 4 4 ("A") ("B") 1 2 0 0
    (some [initState exPF ("A"), SearchState.mk ("B") 1 0 0])
    (some [initState exPF ("A"), SearchState.mk ("B") 1 0 0])
    (by decide) rfl (by decide) rfl

end MFalcon
